import Mathlib

/-!
Shallow embedding of the `pushsync` protocol core (package `pushsync`,
file `pushsync.go`): the retrying closest-peer delivery loop
`pushToClosest`, its public wrapper `PushChunkToClosest`, and the inbound
relay `handler`, together with the neighborhood replication fan-out.

External collaborators (topology, pricer, accounting, streamer, tagger,
signer, storer) are modelled as oracle environments: one `IterEnv` per
loop iteration of `pushToClosest` and one `HandlerEnv` per `handler`
invocation.  Every observable call into the accounting/stream/topology
collaborators is recorded in an event trace, so that the accounting
discipline and the skip-set discipline of the source are provable
statements about traces.

The deferred-cleanup list of the source (`deferFuncs`, flushed at the top
of every loop iteration after the context check, and once more on
function return) is modelled by the `pending` field of `LoopState`:
events deferred by the current iteration, emitted at the next flush.
-/

namespace Pushsync

abbrev Peer := Nat

abbrev Price := Nat

abbrev Addr := Nat

/-- `maxPeers = 5` in the source: the attempt budget of `pushToClosest`. -/
def maxPeers : Nat := 5

/-- `nPeersToPushsync = 3` in the source: replication fan-out cap. -/
def nPeersToPushsync : Nat := 3

/-- A swarm chunk: address, data, and tag id (`ch.TagID()`). -/
structure Chunk where
  address : Addr
  data : List Nat
  tagID : Nat
deriving DecidableEq, Repr

/-- Wire receipt message (`pb.Receipt`): address bytes and signature bytes. -/
structure ReceiptMsg where
  address : Addr
  signature : List Nat
deriving DecidableEq, Repr

/-- The public `Receipt` struct returned by `PushChunkToClosest`. -/
structure Receipt where
  address : Addr
  signature : List Nat
deriving DecidableEq, Repr

/-- Wire delivery message (`pb.Delivery`). -/
structure DeliveryMsg where
  address : Addr
  data : List Nat
deriving DecidableEq, Repr

/-- Errors that `pricer.CheapestPeer` can return. -/
inductive SelErr where
  | wantSelf
  | notFound
  | other
deriving DecidableEq, Repr

/-- Errors returned by `pushToClosest`. -/
inductive PushErr where
  | ctxCancelled
  | closestPeer (e : SelErr)
  | newStreamErr (p : Peer)
  | reserveErr (p : Peer)
  | deliverErr (p : Peer)
  | tagIncErr
  | receiptRecvErr (p : Peer)
  | invalidReceiptErr (p : Peer)
  | creditErr (p : Peer)
  | notFound
deriving DecidableEq, Repr

/-- Outcome of the `tagger.Get` / `t.Inc(tags.StateSent)` step. `noTag`
covers both a failing `Get` and a nil tag, in which case the source
proceeds without incrementing. -/
inductive TagOutcome where
  | noTag
  | incOk
  | incErr
deriving DecidableEq, Repr

/-- Observable collaborator calls made by `pushToClosest`, in trace order.
`select`/`reselect` record the skip list passed to `CheapestPeer`;
`streamOpen` records `streamer.NewStream`; the accounting events record
`Reserve` (split by success), `Release` and `Credit` (split by success);
`sendDelivery` records the delivery write on the stream. -/
inductive Event where
  | select (skip : List Peer) (p : Peer)
  | streamOpen (p : Peer) (ok : Bool)
  | reselect (skip : List Peer) (p : Peer)
  | reserve (p : Peer) (amt : Price)
  | reserveFail (p : Peer) (amt : Price)
  | release (p : Peer) (amt : Price)
  | sendDelivery (p : Peer)
  | credit (p : Peer) (amt : Price)
  | creditFailEv (p : Peer) (amt : Price)
deriving DecidableEq, Repr

def isReserve : Event → Bool
  | .reserve _ _ => true
  | _ => false

def isRelease : Event → Bool
  | .release _ _ => true
  | _ => false

def isCredit : Event → Bool
  | .credit _ _ => true
  | _ => false

def isSendDelivery : Event → Bool
  | .sendDelivery _ => true
  | _ => false

def isSelect : Event → Bool
  | .select _ _ => true
  | _ => false

def isReselect : Event → Bool
  | .reselect _ _ => true
  | _ => false

/-- Oracle for the external collaborators during one loop iteration of
`pushToClosest`.  `cheapest1` is the iteration's first `CheapestPeer`
call and `cheapest2` the re-query inside the price-mismatch branch (the
pricer is stateful, so the two calls may answer differently). -/
structure IterEnv where
  ctxDone : Bool
  cheapest1 : List Peer → Except SelErr Peer
  peerPrice : Peer → Price
  makeHeadersOk : Bool
  newStream : Peer → Bool
  parseResp : Except Unit (Price × Nat)
  notifyOk : Peer → Price → Nat → Bool
  cheapest2 : List Peer → Except SelErr Peer
  reserveOk : Peer → Price → Bool
  writeOk : Bool
  tagOutcome : TagOutcome
  readReceipt : Except Unit ReceiptMsg
  creditOk : Peer → Price → Bool

/-- Loop-carried state of `pushToClosest`: the skip list, the last
recorded retryable error, and the deferred events of the current
iteration (the source's `deferFuncs`), to be flushed at the next
iteration's `defersFn()` call or on return. -/
structure LoopState where
  skip : List Peer
  lastErr : Option PushErr
  pending : List Event

/-- Result of one loop iteration: either the whole call returns (`done`,
with all deferred events flushed into `ev`), or the loop continues
(`next`) with the new state; `ev` are the events emitted so far by this
iteration (including the flush of the previous iteration's deferred
events). -/
inductive StepRes where
  | done (r : Except PushErr ReceiptMsg) (ev : List Event)
  | next (st : LoopState) (ev : List Event)

/-- Tail of one loop iteration, from `skipPeers = append(skipPeers, peer)`
(source line 381) to the end of the loop body: reserve, send delivery,
tag increment, receipt read and validation, credit.  `receiptPrice` is
the effective price after reconciliation; `ev` the events already emitted
this iteration. -/
def afterRecon (ch : Chunk) (e : IterEnv) (st : LoopState) (peer : Peer)
    (receiptPrice : Price) (ev : List Event) : StepRes :=
  let skip' := st.skip ++ [peer]
  if !e.reserveOk peer receiptPrice then
    .done (.error (.reserveErr peer)) (ev ++ [.reserveFail peer receiptPrice])
  else
    let ev1 := ev ++ [Event.reserve peer receiptPrice]
    let pend := [Event.release peer receiptPrice]
    let ev2 := ev1 ++ [Event.sendDelivery peer]
    if !e.writeOk then
      .next ⟨skip', some (.deliverErr peer), pend⟩ ev2
    else
      if e.tagOutcome = .incErr then .done (.error .tagIncErr) (ev2 ++ pend)
      else
        match e.readReceipt with
        | .error _ => .next ⟨skip', some (.receiptRecvErr peer), pend⟩ ev2
        | .ok receipt =>
          if receipt.address ≠ ch.address then
            .next ⟨skip', some (.invalidReceiptErr peer), pend⟩ ev2
          else if !e.creditOk peer receiptPrice then
            .done (.error (.creditErr peer))
              (ev2 ++ [Event.creditFailEv peer receiptPrice] ++ pend)
          else
            .done (.ok receipt)
              (ev2 ++ [Event.credit peer receiptPrice] ++ pend)

/-- One iteration of the `for i := 0; i < maxPeers; i++` loop of
`pushToClosest`: context check, flush of deferred functions, peer
selection, pricing headers, stream open, response-header parsing, price
reconciliation, then `afterRecon`. -/
def iterStep (ch : Chunk) (e : IterEnv) (st : LoopState) : StepRes :=
  if e.ctxDone then
    .done (.error .ctxCancelled) st.pending
  else
    match e.cheapest1 st.skip with
    | .error se => .done (.error (.closestPeer se)) st.pending
    | .ok peer =>
      let ev1 := st.pending ++ [Event.select st.skip peer]
      let receiptPrice := e.peerPrice peer
      if !e.makeHeadersOk then
        .next ⟨st.skip, st.lastErr, []⟩ ev1
      else if !e.newStream peer then
        .next ⟨st.skip, some (.newStreamErr peer), []⟩
          (ev1 ++ [Event.streamOpen peer false])
      else
        let ev2 := ev1 ++ [Event.streamOpen peer true]
        match e.parseResp with
        | .error _ => .next ⟨st.skip, st.lastErr, []⟩ ev2
        | .ok (returnedPrice, returnedIndex) =>
          if returnedPrice ≠ receiptPrice then
            if !e.notifyOk peer returnedPrice returnedIndex then
              .next ⟨st.skip, st.lastErr, []⟩ ev2
            else
              match e.cheapest2 st.skip with
              | .ok p2 =>
                let ev3 := ev2 ++ [Event.reselect st.skip p2]
                if p2 ≠ peer then
                  .next ⟨st.skip, st.lastErr, []⟩ ev3
                else
                  afterRecon ch e st peer returnedPrice ev3
              | .error _ =>
                afterRecon ch e st peer returnedPrice ev2
          else
            afterRecon ch e st peer receiptPrice ev2

/-- The loop of `pushToClosest`, iterating over the per-iteration oracle
environments.  On fuel exhaustion the last deferred events are flushed
and the last recorded error (or the not-found sentinel) is returned. -/
def pushLoop (ch : Chunk) : List IterEnv → LoopState →
    Except PushErr ReceiptMsg × List Event
  | [], st =>
    (match st.lastErr with
     | some err => .error err
     | none => .error .notFound, st.pending)
  | e :: rest, st =>
    match iterStep ch e st with
    | .done r ev => (r, ev)
    | .next st' ev =>
      let res := pushLoop ch rest st'
      (res.1, ev ++ res.2)

structure PushResult where
  res : Except PushErr ReceiptMsg
  events : List Event

def initState : LoopState := ⟨[], none, []⟩

/-- `pushToClosest`: runs the loop for exactly `maxPeers` iterations,
starting with an empty skip list, no recorded error and no deferred
functions. -/
def pushToClosest (env : Nat → IterEnv) (ch : Chunk) : PushResult :=
  let r := pushLoop ch ((List.range maxPeers).map env) initState
  ⟨r.1, r.2⟩

/-- `PushChunkToClosest`: public wrapper converting the wire receipt into
the exported `Receipt` struct. -/
def PushChunkToClosest (env : Nat → IterEnv) (ch : Chunk) :
    Except PushErr Receipt × List Event :=
  let r := pushToClosest env ch
  match r.res with
  | .error err => (.error err, r.events)
  | .ok rc => (.ok ⟨rc.address, rc.signature⟩, r.events)

/-- The two possible shapes of the events an iteration has emitted by the
time it reaches the reservation step: selection, successful stream open,
and possibly a reselection inside the price-mismatch branch. -/
def MidEv (st : LoopState) (p : Peer) (mid : List Event) : Prop :=
  mid = st.pending ++ [Event.select st.skip p, Event.streamOpen p true] ∨
  ∃ p2, mid = st.pending ++
    [Event.select st.skip p, Event.streamOpen p true, Event.reselect st.skip p2]

/-- Continuation view of one unfolding of `pushLoop`. -/
def stepFold (sr : StepRes)
    (k : LoopState → Except PushErr ReceiptMsg × List Event) :
    Except PushErr ReceiptMsg × List Event :=
  match sr with
  | .done r ev => (r, ev)
  | .next st' ev => ((k st').1, ev ++ (k st').2)

/-- In every reachable state, the deferred-event list holds only
`release` events (the source's only deferred accounting action). -/
def PendOk (st : LoopState) : Prop := ∀ x ∈ st.pending, isRelease x = true

def resOkCount : Except PushErr ReceiptMsg → Nat
  | .ok _ => 1
  | .error _ => 0

/-- Reserve-before-select discipline of a trace: every `Reserve` event is
respected by all later `CheapestPeer` calls, whose skip list contains the
reserved peer. -/
def RBS : List Event → Prop
  | [] => True
  | x :: rest =>
    (∀ p a, x = Event.reserve p a → ∀ s q, Event.select s q ∈ rest → p ∈ s) ∧ RBS rest

/-- The observer of `pushToClosest`'s loop used to state the exhaustion
claim: it runs the same `iterStep` iterations and returns the final loop
state when no iteration returned early, and `none` otherwise. -/
def runIters (ch : Chunk) : List IterEnv → LoopState → Option LoopState
  | [], st => some st
  | e :: rest, st =>
    match iterStep ch e st with
    | .done _ _ => none
    | .next st' _ => runIters ch rest st'

/-- An iteration that fails while building the pricing headers or while
parsing the pricing response headers: the source does a bare `continue`,
so the attempt is consumed with `lastErr` unchanged and the selected peer
not added to the skip list. -/
def SilentIterFail (e : IterEnv) : Prop :=
  e.ctxDone = false ∧ ∃ p, e.cheapest1 [] = .ok p ∧
    (e.makeHeadersOk = false ∨
     (e.makeHeadersOk = true ∧ e.newStream p = true ∧ e.parseResp = .error ()))

/-- Errors returned by the relay `handler`. -/
inductive HErr where
  | readDeliveryErr
  | invalidChunk
  | outOfDepthReplication
  | debitErr
  | storeErr
  | signErr
  | writeReceiptErr
  | pushFailed (e : PushErr)
deriving DecidableEq, Repr

/-- Observable collaborator calls made by the relay `handler`.
`putReplica` is the store in the upstream-closer branch, `putForward` the
best-effort store before forwarding, `putSelf` the store in the want-self
terminal branch; `launchReplication p` records the spawn of one
neighborhood replication goroutine toward `p`. -/
inductive HEvent where
  | putReplica
  | putForward
  | putSelf
  | debitCall (p : Peer) (amt : Price)
  | signCall (a : Addr)
  | writeReceiptUp (a : Addr) (sig : List Nat)
  | launchReplication (p : Peer)
deriving DecidableEq, Repr

/-- Oracle for the external collaborators during one `handler`
invocation.  `respPriceHeader` is the price parsed from the stream's
response headers (`none` when `ParsePriceHeader` fails, in which case the
source falls back to `PriceForPeer`); `distanceCmp` is the result of
`swarm.DistanceCmp(chunk, upstream, self)`; store outcomes are per call
site.  `putReplicaOk` and `putForwardOk` are recorded for fidelity: the
source only logs those failures, so they do not influence control flow. -/
structure HandlerEnv where
  readDelivery : Except Unit DeliveryMsg
  cacValid : Bool
  socValid : Bool
  respPriceHeader : Option Price
  priceForPeer : Price
  distanceCmp : Int
  withinDepth : Bool
  putReplicaOk : Bool
  putForwardOk : Bool
  putSelfOk : Bool
  pushEnv : Nat → IterEnv
  neighbors : List Peer
  signResult : Except Unit (List Nat)
  writeReceiptOk : Bool
  debitOk : Bool

/-- The peers toward which the want-self branch spawns replication
goroutines: `EachNeighbor` visits `neighbors` in order, skips the
upstream forwarder, and stops once `count` reaches `nPeersToPushsync`. -/
def replicationTargets : List Peer → Peer → Nat → List Peer
  | [], _, _ => []
  | n :: rest, upstream, count =>
    if n = upstream then replicationTargets rest upstream count
    else if count = nPeersToPushsync then []
    else n :: replicationTargets rest upstream (count + 1)

/-- The inbound relay `handler`: reads one delivery, validates the chunk,
determines the price owed by the upstream peer, then either acts as a
replication target (upstream strictly closer), or forwards via
`pushToClosest`, handling the want-self terminal case by storing,
replicating to neighbors, signing and returning a receipt. -/
def handler (env : HandlerEnv) (upstream : Peer) :
    Except HErr Unit × List HEvent :=
  match env.readDelivery with
  | .error _ => (.error .readDeliveryErr, [])
  | .ok msg =>
    if !env.cacValid && !env.socValid then (.error .invalidChunk, [])
    else
      let chunk : Chunk := ⟨msg.address, msg.data, 0⟩
      let price := env.respPriceHeader.getD env.priceForPeer
      if env.distanceCmp = 1 then
        if env.withinDepth then
          (if env.debitOk then .ok () else .error .debitErr,
           [.putReplica, .debitCall upstream price])
        else
          (.error .outOfDepthReplication, [])
      else
        let ev0 : List HEvent := if env.withinDepth then [.putForward] else []
        let pr := pushToClosest env.pushEnv chunk
        match pr.res with
        | .ok receipt =>
          let ev := ev0 ++ [HEvent.writeReceiptUp receipt.address receipt.signature]
          if !env.writeReceiptOk then (.error .writeReceiptErr, ev)
          else (if env.debitOk then .ok () else .error .debitErr,
                ev ++ [HEvent.debitCall upstream price])
        | .error err =>
          if err = .closestPeer .wantSelf then
            let ev1 := ev0 ++ [HEvent.putSelf]
            if !env.putSelfOk then (.error .storeErr, ev1)
            else
              let targets := replicationTargets env.neighbors upstream 0
              let ev2 := ev1 ++ targets.map HEvent.launchReplication
              let ev3 := ev2 ++ [HEvent.signCall chunk.address]
              match env.signResult with
              | .error _ => (.error .signErr, ev3)
              | .ok sig =>
                let ev4 := ev3 ++ [HEvent.writeReceiptUp chunk.address sig]
                if !env.writeReceiptOk then (.error .writeReceiptErr, ev4)
                else (if env.debitOk then .ok () else .error .debitErr,
                      ev4 ++ [HEvent.debitCall upstream price])
          else (.error (.pushFailed err), ev0)

/-- A chunk used for concrete runs. -/
def chT : Chunk := ⟨3, [9], 0⟩

/-- An iteration oracle in which every collaborator call succeeds and the
selected peer 7 answers with a valid receipt for address 3. -/
def eOK : IterEnv where
  ctxDone := false
  cheapest1 := fun _ => .ok 7
  peerPrice := fun _ => 5
  makeHeadersOk := true
  newStream := fun _ => true
  parseResp := .ok (5, 0)
  notifyOk := fun _ _ _ => true
  cheapest2 := fun _ => .ok 7
  reserveOk := fun _ _ => true
  writeOk := true
  tagOutcome := .noTag
  readReceipt := .ok ⟨3, [1, 2]⟩
  creditOk := fun _ _ => true

def envSucc : Nat → IterEnv := fun _ => eOK

def eStreamFail : IterEnv := { eOK with newStream := fun _ => false }

def envC2 : Nat → IterEnv := fun i => if i = 0 then eStreamFail else eOK

def eWriteFail : IterEnv := { eOK with writeOk := false }

def envC2w : Nat → IterEnv := fun i => if i = 0 then eWriteFail else eOK

def eResFail : IterEnv := { eOK with reserveOk := fun _ _ => false }

def envRF : Nat → IterEnv := fun i => if i = 0 then eWriteFail else eResFail

def eHeadersFail : IterEnv := { eOK with makeHeadersOk := false }

def envHF : Nat → IterEnv := fun _ => eHeadersFail

def eC8 : IterEnv := { eOK with parseResp := .ok (9, 0), cheapest2 := fun _ => .ok 8 }

def eSig : IterEnv := { eOK with readReceipt := .ok ⟨3, []⟩ }

def envSig : Nat → IterEnv := fun _ => eSig

/-- A handler oracle: upstream peer strictly closer, chunk within depth,
all collaborators succeeding. -/
def hEnvC6 : HandlerEnv where
  readDelivery := .ok ⟨3, [9]⟩
  cacValid := true
  socValid := false
  respPriceHeader := some 5
  priceForPeer := 7
  distanceCmp := 1
  withinDepth := true
  putReplicaOk := true
  putForwardOk := true
  putSelfOk := true
  pushEnv := envSucc
  neighbors := []
  signResult := .ok [4]
  writeReceiptOk := true
  debitOk := true

/-- An inner forwarding oracle whose first selection reports want-self. -/
def pushEnvWS : Nat → IterEnv := fun _ =>
  { eOK with cheapest1 := fun _ => .error .wantSelf }

/-- A handler oracle for the want-self terminal case, with upstream peer 9
among the neighbors. -/
def hEnvC7 : HandlerEnv :=
  { hEnvC6 with distanceCmp := 0, pushEnv := pushEnvWS, neighbors := [9, 1, 2, 3, 4] }

/-- Case analysis on the outcome of `afterRecon`. -/
theorem afterRecon_elim (ch : Chunk) (e : IterEnv) (st : LoopState)
    (p : Peer) (a : Price) (ev : List Event) (motive : StepRes → Prop)
    (hrsv : motive (.done (.error (.reserveErr p)) (ev ++ [.reserveFail p a])))
    (hwrite : motive (.next ⟨st.skip ++ [p], some (.deliverErr p), [.release p a]⟩
      (ev ++ [.reserve p a, .sendDelivery p])))
    (htag : motive (.done (.error .tagIncErr)
      (ev ++ [.reserve p a, .sendDelivery p, .release p a])))
    (hread : motive (.next ⟨st.skip ++ [p], some (.receiptRecvErr p), [.release p a]⟩
      (ev ++ [.reserve p a, .sendDelivery p])))
    (hinv : motive (.next ⟨st.skip ++ [p], some (.invalidReceiptErr p), [.release p a]⟩
      (ev ++ [.reserve p a, .sendDelivery p])))
    (hcredit : motive (.done (.error (.creditErr p))
      (ev ++ [.reserve p a, .sendDelivery p, .creditFailEv p a, .release p a])))
    (hok : ∀ rc : ReceiptMsg, rc.address = ch.address → motive (.done (.ok rc)
      (ev ++ [.reserve p a, .sendDelivery p, .credit p a, .release p a]))) :
    motive (afterRecon ch e st p a ev) := by
  by_cases hr : e.reserveOk p a = true
  case neg => simpa [afterRecon, hr] using hrsv
  by_cases hw : e.writeOk = true
  case neg => simpa [afterRecon, hr, hw] using hwrite
  by_cases ht : e.tagOutcome = .incErr
  case pos => simpa [afterRecon, hr, hw, ht] using htag
  cases h3 : e.readReceipt with
  | error u => simpa [afterRecon, hr, hw, ht, h3] using hread
  | ok receipt =>
    by_cases ha : receipt.address = ch.address
    case neg => simpa [afterRecon, hr, hw, ht, h3, ha] using hinv
    by_cases hcr : e.creditOk p a = true
    case neg => simpa [afterRecon, hr, hw, ht, h3, ha, hcr] using hcredit
    simpa [afterRecon, hr, hw, ht, h3, ha, hcr] using hok receipt ha

/-- Case analysis on the outcome of one loop iteration of
`pushToClosest`: every iteration either returns (context cancelled,
selection error, reservation failure, tag-increment failure, credit
failure, or success) or continues (headers failure, stream-open failure,
response-parse failure, notify failure, cheapest-peer changed, delivery
write failure, receipt read failure, receipt address mismatch), with the
events and state updates listed here. -/
theorem iterStep_elim (ch : Chunk) (e : IterEnv) (st : LoopState)
    (motive : StepRes → Prop)
    (hctx : motive (.done (.error .ctxCancelled) st.pending))
    (hsel : ∀ se, motive (.done (.error (.closestPeer se)) st.pending))
    (hhdr : ∀ p, motive (.next ⟨st.skip, st.lastErr, []⟩
      (st.pending ++ [.select st.skip p])))
    (hopen : ∀ p, motive (.next ⟨st.skip, some (.newStreamErr p), []⟩
      (st.pending ++ [.select st.skip p, .streamOpen p false])))
    (hparse : ∀ p, motive (.next ⟨st.skip, st.lastErr, []⟩
      (st.pending ++ [.select st.skip p, .streamOpen p true])))
    (hchg : ∀ p p2, motive (.next ⟨st.skip, st.lastErr, []⟩
      (st.pending ++ [.select st.skip p, .streamOpen p true, .reselect st.skip p2])))
    (hrsv : ∀ p a mid, MidEv st p mid →
      motive (.done (.error (.reserveErr p)) (mid ++ [.reserveFail p a])))
    (hwrite : ∀ p a mid, MidEv st p mid →
      motive (.next ⟨st.skip ++ [p], some (.deliverErr p), [.release p a]⟩
        (mid ++ [.reserve p a, .sendDelivery p])))
    (htag : ∀ p a mid, MidEv st p mid →
      motive (.done (.error .tagIncErr)
        (mid ++ [.reserve p a, .sendDelivery p, .release p a])))
    (hread : ∀ p a mid, MidEv st p mid →
      motive (.next ⟨st.skip ++ [p], some (.receiptRecvErr p), [.release p a]⟩
        (mid ++ [.reserve p a, .sendDelivery p])))
    (hinv : ∀ p a mid, MidEv st p mid →
      motive (.next ⟨st.skip ++ [p], some (.invalidReceiptErr p), [.release p a]⟩
        (mid ++ [.reserve p a, .sendDelivery p])))
    (hcredit : ∀ p a mid, MidEv st p mid →
      motive (.done (.error (.creditErr p))
        (mid ++ [.reserve p a, .sendDelivery p, .creditFailEv p a, .release p a])))
    (hok : ∀ p a mid (rc : ReceiptMsg), MidEv st p mid → rc.address = ch.address →
      motive (.done (.ok rc)
        (mid ++ [.reserve p a, .sendDelivery p, .credit p a, .release p a]))) :
    motive (iterStep ch e st) := by
  by_cases hc : e.ctxDone = true
  case pos => simpa [iterStep, hc] using hctx
  cases h1 : e.cheapest1 st.skip with
  | error se => simpa [iterStep, hc, h1] using hsel se
  | ok p =>
    by_cases hm : e.makeHeadersOk = true
    case neg => simpa [iterStep, hc, h1, hm] using hhdr p
    by_cases hs : e.newStream p = true
    case neg => simpa [iterStep, hc, h1, hm, hs] using hopen p
    cases h2 : e.parseResp with
    | error u => simpa [iterStep, hc, h1, hm, hs, h2] using hparse p
    | ok pr =>
      obtain ⟨rp, ri⟩ := pr
      by_cases hp : rp = e.peerPrice p
      case pos =>
        have hg : iterStep ch e st = afterRecon ch e st p (e.peerPrice p)
            (st.pending ++ [Event.select st.skip p, Event.streamOpen p true]) := by
          simp [iterStep, hc, h1, hm, hs, h2, hp]
        rw [hg]
        exact afterRecon_elim ch e st p _ _ motive
          (hrsv p _ _ (Or.inl rfl)) (hwrite p _ _ (Or.inl rfl))
          (htag p _ _ (Or.inl rfl)) (hread p _ _ (Or.inl rfl))
          (hinv p _ _ (Or.inl rfl)) (hcredit p _ _ (Or.inl rfl))
          (fun rc hrc => hok p _ _ rc (Or.inl rfl) hrc)
      case neg =>
        by_cases hn : e.notifyOk p rp ri = true
        case neg => simpa [iterStep, hc, h1, hm, hs, h2, hp, hn] using hparse p
        cases h3 : e.cheapest2 st.skip with
        | error u =>
          have hg : iterStep ch e st = afterRecon ch e st p rp
              (st.pending ++ [Event.select st.skip p, Event.streamOpen p true]) := by
            simp [iterStep, hc, h1, hm, hs, h2, hp, hn, h3]
          rw [hg]
          exact afterRecon_elim ch e st p _ _ motive
            (hrsv p _ _ (Or.inl rfl)) (hwrite p _ _ (Or.inl rfl))
            (htag p _ _ (Or.inl rfl)) (hread p _ _ (Or.inl rfl))
            (hinv p _ _ (Or.inl rfl)) (hcredit p _ _ (Or.inl rfl))
            (fun rc hrc => hok p _ _ rc (Or.inl rfl) hrc)
        | ok p2 =>
          by_cases hq : p2 = p
          case neg => simpa [iterStep, hc, h1, hm, hs, h2, hp, hn, h3, hq] using hchg p p2
          have hg : iterStep ch e st = afterRecon ch e st p rp
              (st.pending ++ [Event.select st.skip p, Event.streamOpen p true,
                Event.reselect st.skip p2]) := by
            simp [iterStep, hc, h1, hm, hs, h2, hp, hn, h3, hq]
          rw [hg]
          exact afterRecon_elim ch e st p _ _ motive
            (hrsv p _ _ (Or.inr ⟨p2, rfl⟩)) (hwrite p _ _ (Or.inr ⟨p2, rfl⟩))
            (htag p _ _ (Or.inr ⟨p2, rfl⟩)) (hread p _ _ (Or.inr ⟨p2, rfl⟩))
            (hinv p _ _ (Or.inr ⟨p2, rfl⟩)) (hcredit p _ _ (Or.inr ⟨p2, rfl⟩))
            (fun rc hrc => hok p _ _ rc (Or.inr ⟨p2, rfl⟩) hrc)

theorem pushLoop_cons_eq (ch : Chunk) (e : IterEnv) (l : List IterEnv)
    (st : LoopState) :
    pushLoop ch (e :: l) st = stepFold (iterStep ch e st) (pushLoop ch l) := rfl

theorem countP_eq_zero_of_release (f : Event → Bool)
    (hf : ∀ p a, f (.release p a) = false) {l : List Event}
    (h : ∀ x ∈ l, isRelease x = true) : l.countP f = 0 := by
  apply List.countP_eq_zero.mpr
  intro a ha
  have hx := h a ha
  cases a <;> simp_all [isRelease, hf]

/-- Release count invariant of the loop: every successful `Reserve`
recorded in the trace is matched by exactly one `Release`, once the
deferred releases still pending are accounted for. -/
theorem pushLoop_release_count (ch : Chunk) :
    ∀ (l : List IterEnv) (st : LoopState), PendOk st →
    ((pushLoop ch l st).2.countP isRelease) =
      ((pushLoop ch l st).2.countP isReserve) + st.pending.countP isRelease := by
  intro l
  induction l with
  | nil =>
    intro st hst
    simp [pushLoop, countP_eq_zero_of_release isReserve (fun _ _ => rfl) hst]
  | cons e l ih =>
    intro st hst
    have h0 := countP_eq_zero_of_release isReserve (fun _ _ => rfl) hst
    rw [pushLoop_cons_eq]
    refine iterStep_elim ch e st (fun sr =>
      ((stepFold sr (pushLoop ch l)).2.countP isRelease) =
        ((stepFold sr (pushLoop ch l)).2.countP isReserve) +
          st.pending.countP isRelease)
      ?_ ?_ ?_ ?_ ?_ ?_ ?_ ?_ ?_ ?_ ?_ ?_ ?_
    · simp [stepFold, h0]
    · intro se; simp [stepFold, h0]
    · intro p
      have hih := ih ⟨st.skip, st.lastErr, []⟩ (by simp [PendOk])
      simp [stepFold, List.countP_append, isRelease, isReserve, h0] at hih ⊢
      omega
    · intro p
      have hih := ih ⟨st.skip, some (.newStreamErr p), []⟩ (by simp [PendOk])
      simp [stepFold, List.countP_append, isRelease, isReserve, h0] at hih ⊢
      omega
    · intro p
      have hih := ih ⟨st.skip, st.lastErr, []⟩ (by simp [PendOk])
      simp [stepFold, List.countP_append, isRelease, isReserve, h0] at hih ⊢
      omega
    · intro p p2
      have hih := ih ⟨st.skip, st.lastErr, []⟩ (by simp [PendOk])
      simp [stepFold, List.countP_append, isRelease, isReserve, h0] at hih ⊢
      omega
    · intro p a mid hmid
      rcases hmid with hm | ⟨p2, hm⟩ <;> subst hm <;>
        simp [stepFold, List.countP_append, isRelease, isReserve, h0]
    · intro p a mid hmid
      have hih := ih ⟨st.skip ++ [p], some (.deliverErr p), [Event.release p a]⟩
        (by simp [PendOk, isRelease])
      rcases hmid with hm | ⟨p2, hm⟩ <;> subst hm <;>
        simp [stepFold, List.countP_append, isRelease, isReserve, h0] at hih ⊢ <;>
        omega
    · intro p a mid hmid
      rcases hmid with hm | ⟨p2, hm⟩ <;> subst hm <;>
        simp [stepFold, List.countP_append, isRelease, isReserve, h0] <;> omega
    · intro p a mid hmid
      have hih := ih ⟨st.skip ++ [p], some (.receiptRecvErr p), [Event.release p a]⟩
        (by simp [PendOk, isRelease])
      rcases hmid with hm | ⟨p2, hm⟩ <;> subst hm <;>
        simp [stepFold, List.countP_append, isRelease, isReserve, h0] at hih ⊢ <;>
        omega
    · intro p a mid hmid
      have hih := ih ⟨st.skip ++ [p], some (.invalidReceiptErr p), [Event.release p a]⟩
        (by simp [PendOk, isRelease])
      rcases hmid with hm | ⟨p2, hm⟩ <;> subst hm <;>
        simp [stepFold, List.countP_append, isRelease, isReserve, h0] at hih ⊢ <;>
        omega
    · intro p a mid hmid
      rcases hmid with hm | ⟨p2, hm⟩ <;> subst hm <;>
        simp [stepFold, List.countP_append, isRelease, isReserve, h0] <;> omega
    · intro p a mid rc hmid hrc
      rcases hmid with hm | ⟨p2, hm⟩ <;> subst hm <;>
        simp [stepFold, List.countP_append, isRelease, isReserve, h0] <;> omega

/-- Credit count invariant of the loop: a successful call issues exactly
one successful `Credit`; a failing call issues none. -/
theorem pushLoop_credit_count (ch : Chunk) :
    ∀ (l : List IterEnv) (st : LoopState), PendOk st →
    ((pushLoop ch l st).2.countP isCredit) = resOkCount (pushLoop ch l st).1 := by
  intro l
  induction l with
  | nil =>
    intro st hst
    have h0 := countP_eq_zero_of_release isCredit (fun _ _ => rfl) hst
    cases hl : st.lastErr <;> simp [pushLoop, hl, resOkCount, h0]
  | cons e l ih =>
    intro st hst
    have h0 := countP_eq_zero_of_release isCredit (fun _ _ => rfl) hst
    rw [pushLoop_cons_eq]
    refine iterStep_elim ch e st (fun sr =>
      ((stepFold sr (pushLoop ch l)).2.countP isCredit) =
        resOkCount (stepFold sr (pushLoop ch l)).1)
      ?_ ?_ ?_ ?_ ?_ ?_ ?_ ?_ ?_ ?_ ?_ ?_ ?_
    · simp [stepFold, h0, resOkCount]
    · intro se; simp [stepFold, h0, resOkCount]
    · intro p
      have hih := ih ⟨st.skip, st.lastErr, []⟩ (by simp [PendOk])
      simp [stepFold, List.countP_append, isCredit, h0, hih]
    · intro p
      have hih := ih ⟨st.skip, some (.newStreamErr p), []⟩ (by simp [PendOk])
      simp [stepFold, List.countP_append, isCredit, h0, hih]
    · intro p
      have hih := ih ⟨st.skip, st.lastErr, []⟩ (by simp [PendOk])
      simp [stepFold, List.countP_append, isCredit, h0, hih]
    · intro p p2
      have hih := ih ⟨st.skip, st.lastErr, []⟩ (by simp [PendOk])
      simp [stepFold, List.countP_append, isCredit, h0, hih]
    · intro p a mid hmid
      rcases hmid with hm | ⟨p2, hm⟩ <;> subst hm <;>
        simp [stepFold, List.countP_append, isCredit, h0, resOkCount]
    · intro p a mid hmid
      have hih := ih ⟨st.skip ++ [p], some (.deliverErr p), [Event.release p a]⟩
        (by simp [PendOk, isRelease])
      rcases hmid with hm | ⟨p2, hm⟩ <;> subst hm <;>
        simp [stepFold, List.countP_append, isCredit, h0, hih]
    · intro p a mid hmid
      rcases hmid with hm | ⟨p2, hm⟩ <;> subst hm <;>
        simp [stepFold, List.countP_append, isCredit, h0, resOkCount]
    · intro p a mid hmid
      have hih := ih ⟨st.skip ++ [p], some (.receiptRecvErr p), [Event.release p a]⟩
        (by simp [PendOk, isRelease])
      rcases hmid with hm | ⟨p2, hm⟩ <;> subst hm <;>
        simp [stepFold, List.countP_append, isCredit, h0, hih]
    · intro p a mid hmid
      have hih := ih ⟨st.skip ++ [p], some (.invalidReceiptErr p), [Event.release p a]⟩
        (by simp [PendOk, isRelease])
      rcases hmid with hm | ⟨p2, hm⟩ <;> subst hm <;>
        simp [stepFold, List.countP_append, isCredit, h0, hih]
    · intro p a mid hmid
      rcases hmid with hm | ⟨p2, hm⟩ <;> subst hm <;>
        simp [stepFold, List.countP_append, isCredit, h0, resOkCount]
    · intro p a mid rc hmid hrc
      rcases hmid with hm | ⟨p2, hm⟩ <;> subst hm <;>
        simp [stepFold, List.countP_append, isCredit, h0, resOkCount]

/-- Success shape of the loop: when the loop returns a receipt, that
receipt's address equals the chunk's address, and the trace ends with the
winning attempt's reserve, delivery, credit and (deferred) release for a
single peer. -/
theorem pushLoop_ok_shape (ch : Chunk) :
    ∀ (l : List IterEnv) (st : LoopState), PendOk st →
    ∀ rc, (pushLoop ch l st).1 = .ok rc →
    rc.address = ch.address ∧
    ∃ p a pre, (pushLoop ch l st).2 =
      pre ++ [Event.reserve p a, Event.sendDelivery p,
        Event.credit p a, Event.release p a] := by
  intro l
  induction l with
  | nil =>
    intro st hst rc hrc
    cases hl : st.lastErr <;> simp [pushLoop, hl] at hrc
  | cons e l ih =>
    intro st hst
    rw [pushLoop_cons_eq]
    refine iterStep_elim ch e st (fun sr =>
      ∀ rc, (stepFold sr (pushLoop ch l)).1 = .ok rc →
        rc.address = ch.address ∧
        ∃ p a pre, (stepFold sr (pushLoop ch l)).2 =
          pre ++ [Event.reserve p a, Event.sendDelivery p,
            Event.credit p a, Event.release p a])
      ?_ ?_ ?_ ?_ ?_ ?_ ?_ ?_ ?_ ?_ ?_ ?_ ?_
    · intro rc hrc; simp [stepFold] at hrc
    · intro se rc hrc; simp [stepFold] at hrc
    · intro p rc hrc
      simp only [stepFold] at hrc ⊢
      obtain ⟨ha, q, b, pre, hpre⟩ := ih ⟨st.skip, st.lastErr, []⟩ (by simp [PendOk]) rc hrc
      exact ⟨ha, q, b, _, by rw [hpre, ← List.append_assoc]⟩
    · intro p rc hrc
      simp only [stepFold] at hrc ⊢
      obtain ⟨ha, q, b, pre, hpre⟩ := ih ⟨st.skip, some (.newStreamErr p), []⟩
        (by simp [PendOk]) rc hrc
      exact ⟨ha, q, b, _, by rw [hpre, ← List.append_assoc]⟩
    · intro p rc hrc
      simp only [stepFold] at hrc ⊢
      obtain ⟨ha, q, b, pre, hpre⟩ := ih ⟨st.skip, st.lastErr, []⟩ (by simp [PendOk]) rc hrc
      exact ⟨ha, q, b, _, by rw [hpre, ← List.append_assoc]⟩
    · intro p p2 rc hrc
      simp only [stepFold] at hrc ⊢
      obtain ⟨ha, q, b, pre, hpre⟩ := ih ⟨st.skip, st.lastErr, []⟩ (by simp [PendOk]) rc hrc
      exact ⟨ha, q, b, _, by rw [hpre, ← List.append_assoc]⟩
    · intro p a mid hmid rc hrc; simp [stepFold] at hrc
    · intro p a mid hmid rc hrc
      simp only [stepFold] at hrc ⊢
      obtain ⟨ha, q, b, pre, hpre⟩ := ih ⟨st.skip ++ [p], some (.deliverErr p),
        [Event.release p a]⟩ (by simp [PendOk, isRelease]) rc hrc
      exact ⟨ha, q, b, _, by rw [hpre, ← List.append_assoc]⟩
    · intro p a mid hmid rc hrc; simp [stepFold] at hrc
    · intro p a mid hmid rc hrc
      simp only [stepFold] at hrc ⊢
      obtain ⟨ha, q, b, pre, hpre⟩ := ih ⟨st.skip ++ [p], some (.receiptRecvErr p),
        [Event.release p a]⟩ (by simp [PendOk, isRelease]) rc hrc
      exact ⟨ha, q, b, _, by rw [hpre, ← List.append_assoc]⟩
    · intro p a mid hmid rc hrc
      simp only [stepFold] at hrc ⊢
      obtain ⟨ha, q, b, pre, hpre⟩ := ih ⟨st.skip ++ [p], some (.invalidReceiptErr p),
        [Event.release p a]⟩ (by simp [PendOk, isRelease]) rc hrc
      exact ⟨ha, q, b, _, by rw [hpre, ← List.append_assoc]⟩
    · intro p a mid hmid rc hrc; simp [stepFold] at hrc
    · intro p a mid rc' hmid hrc' rc hrc
      simp only [stepFold] at hrc ⊢
      cases hrc
      exact ⟨hrc', p, a, mid, by simp⟩

theorem not_mem_pending {st : LoopState} (hst : PendOk st) {x : Event}
    (hx : isRelease x = false) : x ∉ st.pending := by
  intro hmem
  have h2 := hst x hmem
  rw [h2] at hx
  exact Bool.noConfusion hx

theorem select_skip_of_mem {st : LoopState} (hst : PendOk st)
    (explicit rest : List Event) {evs : List Event} {s : List Peer} {q : Peer}
    (hshape : evs = st.pending ++ explicit ++ rest)
    (hex : ∀ s' q', Event.select s' q' ∈ explicit → s' = st.skip)
    (hrest : Event.select s q ∈ rest → st.skip ⊆ s)
    (hmem : Event.select s q ∈ evs) : st.skip ⊆ s := by
  subst hshape
  rcases List.mem_append.mp hmem with hmem | hmem
  · rcases List.mem_append.mp hmem with hmem | hmem
    · exact absurd hmem (not_mem_pending hst rfl)
    · rw [hex s q hmem]
      exact List.Subset.refl _
  · exact hrest hmem

theorem select_nil_rest {st : LoopState} {s : List Peer} {q : Peer} :
    Event.select s q ∈ ([] : List Event) → st.skip ⊆ s :=
  fun hm => absurd hm (List.not_mem_nil _)

/-- Skip-list monotonicity: every `CheapestPeer` call recorded in the
remaining trace receives a skip list extending the current one. -/
theorem pushLoop_select_mono (ch : Chunk) :
    ∀ (l : List IterEnv) (st : LoopState), PendOk st →
    ∀ s q, Event.select s q ∈ (pushLoop ch l st).2 → st.skip ⊆ s := by
  intro l
  induction l with
  | nil =>
    intro st hst s q hmem
    simp only [pushLoop] at hmem
    exact absurd hmem (not_mem_pending hst rfl)
  | cons e l ih =>
    intro st hst
    rw [pushLoop_cons_eq]
    refine iterStep_elim ch e st (fun sr =>
      ∀ s q, Event.select s q ∈ (stepFold sr (pushLoop ch l)).2 → st.skip ⊆ s)
      ?_ ?_ ?_ ?_ ?_ ?_ ?_ ?_ ?_ ?_ ?_ ?_ ?_
    · intro s q hmem
      simp only [stepFold] at hmem
      exact select_skip_of_mem hst ([]) _ (by simp)
        (by intro s' q' hm; simp at hm) select_nil_rest hmem
    · intro se s q hmem
      simp only [stepFold] at hmem
      exact select_skip_of_mem hst ([]) _ (by simp)
        (by intro s' q' hm; simp at hm) select_nil_rest hmem
    · intro p s q hmem
      simp only [stepFold] at hmem
      have hrest : Event.select s q ∈
          (pushLoop ch l ⟨st.skip, st.lastErr, []⟩).2 → st.skip ⊆ s :=
        fun hm => ih ⟨st.skip, st.lastErr, []⟩ (by simp [PendOk]) s q hm
      exact select_skip_of_mem hst ([Event.select st.skip p]) _ (by simp)
        (by intro s' q' hm; simp at hm; tauto) hrest hmem
    · intro p s q hmem
      simp only [stepFold] at hmem
      have hrest : Event.select s q ∈
          (pushLoop ch l ⟨st.skip, some (.newStreamErr p), []⟩).2 → st.skip ⊆ s :=
        fun hm => ih ⟨st.skip, some (.newStreamErr p), []⟩ (by simp [PendOk]) s q hm
      exact select_skip_of_mem hst
        ([Event.select st.skip p, Event.streamOpen p false]) _ (by simp)
        (by intro s' q' hm; simp at hm; tauto) hrest hmem
    · intro p s q hmem
      simp only [stepFold] at hmem
      have hrest : Event.select s q ∈
          (pushLoop ch l ⟨st.skip, st.lastErr, []⟩).2 → st.skip ⊆ s :=
        fun hm => ih ⟨st.skip, st.lastErr, []⟩ (by simp [PendOk]) s q hm
      exact select_skip_of_mem hst
        ([Event.select st.skip p, Event.streamOpen p true]) _ (by simp)
        (by intro s' q' hm; simp at hm; tauto) hrest hmem
    · intro p p2 s q hmem
      simp only [stepFold] at hmem
      have hrest : Event.select s q ∈
          (pushLoop ch l ⟨st.skip, st.lastErr, []⟩).2 → st.skip ⊆ s :=
        fun hm => ih ⟨st.skip, st.lastErr, []⟩ (by simp [PendOk]) s q hm
      exact select_skip_of_mem hst
        ([Event.select st.skip p, Event.streamOpen p true,
          Event.reselect st.skip p2]) _ (by simp)
        (by intro s' q' hm; simp at hm; tauto) hrest hmem
    · intro p a mid hmid s q hmem
      simp only [stepFold] at hmem
      rcases hmid with hm | ⟨p2, hm⟩ <;> subst hm
      · exact select_skip_of_mem hst
          ([Event.select st.skip p, Event.streamOpen p true,
            Event.reserveFail p a]) _ (by simp)
          (by intro s' q' hm; simp at hm; tauto) select_nil_rest hmem
      · exact select_skip_of_mem hst
          ([Event.select st.skip p, Event.streamOpen p true,
            Event.reselect st.skip p2, Event.reserveFail p a]) _ (by simp)
          (by intro s' q' hm; simp at hm; tauto) select_nil_rest hmem
    · intro p a mid hmid s q hmem
      simp only [stepFold] at hmem
      have hrest : Event.select s q ∈
          (pushLoop ch l ⟨st.skip ++ [p], some (.deliverErr p), [Event.release p a]⟩).2 →
          st.skip ⊆ s :=
        fun hm => (List.subset_append_left _ _).trans
          (ih ⟨st.skip ++ [p], some (.deliverErr p), [Event.release p a]⟩
            (by simp [PendOk, isRelease]) s q hm)
      rcases hmid with hm | ⟨p2, hm⟩ <;> subst hm
      · exact select_skip_of_mem hst
          ([Event.select st.skip p, Event.streamOpen p true,
            Event.reserve p a, Event.sendDelivery p]) _ (by simp)
          (by intro s' q' hm; simp at hm; tauto) hrest hmem
      · exact select_skip_of_mem hst
          ([Event.select st.skip p, Event.streamOpen p true,
            Event.reselect st.skip p2, Event.reserve p a, Event.sendDelivery p]) _ (by simp)
          (by intro s' q' hm; simp at hm; tauto) hrest hmem
    · intro p a mid hmid s q hmem
      simp only [stepFold] at hmem
      rcases hmid with hm | ⟨p2, hm⟩ <;> subst hm
      · exact select_skip_of_mem hst
          ([Event.select st.skip p, Event.streamOpen p true,
            Event.reserve p a, Event.sendDelivery p, Event.release p a]) _ (by simp)
          (by intro s' q' hm; simp at hm; tauto) select_nil_rest hmem
      · exact select_skip_of_mem hst
          ([Event.select st.skip p, Event.streamOpen p true,
            Event.reselect st.skip p2, Event.reserve p a, Event.sendDelivery p,
            Event.release p a]) _ (by simp)
          (by intro s' q' hm; simp at hm; tauto) select_nil_rest hmem
    · intro p a mid hmid s q hmem
      simp only [stepFold] at hmem
      have hrest : Event.select s q ∈
          (pushLoop ch l ⟨st.skip ++ [p], some (.receiptRecvErr p), [Event.release p a]⟩).2 →
          st.skip ⊆ s :=
        fun hm => (List.subset_append_left _ _).trans
          (ih ⟨st.skip ++ [p], some (.receiptRecvErr p), [Event.release p a]⟩
            (by simp [PendOk, isRelease]) s q hm)
      rcases hmid with hm | ⟨p2, hm⟩ <;> subst hm
      · exact select_skip_of_mem hst
          ([Event.select st.skip p, Event.streamOpen p true,
            Event.reserve p a, Event.sendDelivery p]) _ (by simp)
          (by intro s' q' hm; simp at hm; tauto) hrest hmem
      · exact select_skip_of_mem hst
          ([Event.select st.skip p, Event.streamOpen p true,
            Event.reselect st.skip p2, Event.reserve p a, Event.sendDelivery p]) _ (by simp)
          (by intro s' q' hm; simp at hm; tauto) hrest hmem
    · intro p a mid hmid s q hmem
      simp only [stepFold] at hmem
      have hrest : Event.select s q ∈
          (pushLoop ch l ⟨st.skip ++ [p], some (.invalidReceiptErr p), [Event.release p a]⟩).2 →
          st.skip ⊆ s :=
        fun hm => (List.subset_append_left _ _).trans
          (ih ⟨st.skip ++ [p], some (.invalidReceiptErr p), [Event.release p a]⟩
            (by simp [PendOk, isRelease]) s q hm)
      rcases hmid with hm | ⟨p2, hm⟩ <;> subst hm
      · exact select_skip_of_mem hst
          ([Event.select st.skip p, Event.streamOpen p true,
            Event.reserve p a, Event.sendDelivery p]) _ (by simp)
          (by intro s' q' hm; simp at hm; tauto) hrest hmem
      · exact select_skip_of_mem hst
          ([Event.select st.skip p, Event.streamOpen p true,
            Event.reselect st.skip p2, Event.reserve p a, Event.sendDelivery p]) _ (by simp)
          (by intro s' q' hm; simp at hm; tauto) hrest hmem
    · intro p a mid hmid s q hmem
      simp only [stepFold] at hmem
      rcases hmid with hm | ⟨p2, hm⟩ <;> subst hm
      · exact select_skip_of_mem hst
          ([Event.select st.skip p, Event.streamOpen p true,
            Event.reserve p a, Event.sendDelivery p, Event.creditFailEv p a,
            Event.release p a]) _ (by simp)
          (by intro s' q' hm; simp at hm; tauto) select_nil_rest hmem
      · exact select_skip_of_mem hst
          ([Event.select st.skip p, Event.streamOpen p true,
            Event.reselect st.skip p2, Event.reserve p a, Event.sendDelivery p,
            Event.creditFailEv p a, Event.release p a]) _ (by simp)
          (by intro s' q' hm; simp at hm; tauto) select_nil_rest hmem
    · intro p a mid rc hmid hrc s q hmem
      simp only [stepFold] at hmem
      rcases hmid with hm | ⟨p2, hm⟩ <;> subst hm
      · exact select_skip_of_mem hst
          ([Event.select st.skip p, Event.streamOpen p true,
            Event.reserve p a, Event.sendDelivery p, Event.credit p a,
            Event.release p a]) _ (by simp)
          (by intro s' q' hm; simp at hm; tauto) select_nil_rest hmem
      · exact select_skip_of_mem hst
          ([Event.select st.skip p, Event.streamOpen p true,
            Event.reselect st.skip p2, Event.reserve p a, Event.sendDelivery p,
            Event.credit p a, Event.release p a]) _ (by simp)
          (by intro s' q' hm; simp at hm; tauto) select_nil_rest hmem

theorem isReserve_false_of_isRelease {x : Event} (h : isRelease x = true) :
    isReserve x = false := by
  cases x <;> simp_all [isRelease, isReserve]

theorem RBS_append_no_reserve (xs ys : List Event)
    (hxs : ∀ x ∈ xs, isReserve x = false) (h : RBS ys) : RBS (xs ++ ys) := by
  induction xs with
  | nil => simpa
  | cons x xs ih =>
    refine ⟨?_, ih (fun y hy => hxs y (List.mem_cons_of_mem _ hy))⟩
    intro p a hx
    have hx2 := hxs x (List.mem_cons_self _ _)
    rw [hx] at hx2
    simp [isReserve] at hx2

theorem RBS_positional : ∀ (xs : List Event) {evs ys : List Event} {p : Peer} {a : Price},
    RBS evs → evs = xs ++ Event.reserve p a :: ys →
    ∀ s q, Event.select s q ∈ ys → p ∈ s := by
  intro xs
  induction xs with
  | nil =>
    intro evs ys p a hrbs heq s q hmem
    subst heq
    exact hrbs.1 p a rfl s q hmem
  | cons x xs ih =>
    intro evs ys p a hrbs heq s q hmem
    subst heq
    exact ih hrbs.2 rfl s q hmem

/-- The trace of `pushToClosest` satisfies the reserve-before-select
discipline: a peer, once reserved against (which happens right after it
is appended to the skip list), is excluded from every later
`CheapestPeer` query of the same call. -/
theorem pushLoop_RBS (ch : Chunk) :
    ∀ (l : List IterEnv) (st : LoopState), PendOk st → RBS (pushLoop ch l st).2 := by
  intro l
  induction l with
  | nil =>
    intro st hst
    simp only [pushLoop]
    have := RBS_append_no_reserve st.pending []
      (fun x hx => isReserve_false_of_isRelease (hst x hx)) trivial
    simpa using this
  | cons e l ih =>
    intro st hst
    have hpend : ∀ x ∈ st.pending, isReserve x = false :=
      fun x hx => isReserve_false_of_isRelease (hst x hx)
    rw [pushLoop_cons_eq]
    refine iterStep_elim ch e st (fun sr => RBS (stepFold sr (pushLoop ch l)).2)
      ?_ ?_ ?_ ?_ ?_ ?_ ?_ ?_ ?_ ?_ ?_ ?_ ?_
    · simp only [stepFold]
      simpa using RBS_append_no_reserve st.pending [] hpend trivial
    · intro se
      simp only [stepFold]
      simpa using RBS_append_no_reserve st.pending [] hpend trivial
    · intro p
      simp only [stepFold, List.append_assoc, List.cons_append, List.singleton_append,
        List.nil_append]
      refine RBS_append_no_reserve st.pending _ hpend ?_
      exact ⟨by intro p' a' h; simp at h, ih ⟨st.skip, st.lastErr, []⟩ (by simp [PendOk])⟩
    · intro p
      simp only [stepFold, List.append_assoc, List.cons_append, List.singleton_append,
        List.nil_append]
      refine RBS_append_no_reserve st.pending _ hpend ?_
      exact ⟨by intro p' a' h; simp at h, by intro p' a' h; simp at h,
        ih ⟨st.skip, some (.newStreamErr p), []⟩ (by simp [PendOk])⟩
    · intro p
      simp only [stepFold, List.append_assoc, List.cons_append, List.singleton_append,
        List.nil_append]
      refine RBS_append_no_reserve st.pending _ hpend ?_
      exact ⟨by intro p' a' h; simp at h, by intro p' a' h; simp at h,
        ih ⟨st.skip, st.lastErr, []⟩ (by simp [PendOk])⟩
    · intro p p2
      simp only [stepFold, List.append_assoc, List.cons_append, List.singleton_append,
        List.nil_append]
      refine RBS_append_no_reserve st.pending _ hpend ?_
      exact ⟨by intro p' a' h; simp at h, by intro p' a' h; simp at h,
        by intro p' a' h; simp at h,
        ih ⟨st.skip, st.lastErr, []⟩ (by simp [PendOk])⟩
    · intro p a mid hmid
      rcases hmid with hm | ⟨p2, hm⟩ <;> subst hm <;>
        simp only [stepFold, List.append_assoc, List.cons_append, List.singleton_append,
          List.nil_append] <;>
        refine RBS_append_no_reserve st.pending _ hpend ?_
      · exact ⟨by intro p' a' h; simp at h, by intro p' a' h; simp at h,
          by intro p' a' h; simp at h, trivial⟩
      · exact ⟨by intro p' a' h; simp at h, by intro p' a' h; simp at h,
          by intro p' a' h; simp at h, by intro p' a' h; simp at h, trivial⟩
    · intro p a mid hmid
      have hmono := pushLoop_select_mono ch l
        ⟨st.skip ++ [p], some (.deliverErr p), [Event.release p a]⟩
        (by simp [PendOk, isRelease])
      have hrbs := ih ⟨st.skip ++ [p], some (.deliverErr p), [Event.release p a]⟩
        (by simp [PendOk, isRelease])
      have hres : ∀ p' a', Event.reserve p a = Event.reserve p' a' →
          ∀ s q, Event.select s q ∈ Event.sendDelivery p ::
            (pushLoop ch l ⟨st.skip ++ [p], some (.deliverErr p), [Event.release p a]⟩).2 →
          p' ∈ s := by
        intro p' a' heq s q hmem
        cases heq
        simp only [List.mem_cons] at hmem
        rcases hmem with h | hmem
        · simp at h
        · exact hmono s q hmem (List.mem_append_right _ (by simp))
      rcases hmid with hm | ⟨p2, hm⟩ <;> subst hm <;>
        simp only [stepFold, List.append_assoc, List.cons_append, List.singleton_append,
          List.nil_append]
      · exact RBS_append_no_reserve st.pending _ hpend
          ⟨by intro p' a' h; simp at h, by intro p' a' h; simp at h, hres,
            by intro p' a' h; simp at h, hrbs⟩
      · exact RBS_append_no_reserve st.pending _ hpend
          ⟨by intro p' a' h; simp at h, by intro p' a' h; simp at h,
            by intro p' a' h; simp at h, hres,
            by intro p' a' h; simp at h, hrbs⟩
    · intro p a mid hmid
      rcases hmid with hm | ⟨p2, hm⟩ <;> subst hm <;>
        simp only [stepFold, List.append_assoc, List.cons_append, List.singleton_append,
          List.nil_append] <;>
        refine RBS_append_no_reserve st.pending _ hpend ?_
      · exact ⟨by intro p' a' h; simp at h, by intro p' a' h; simp at h,
          by intro p' a' heq s q hmem; simp at hmem,
          by intro p' a' h; simp at h, by intro p' a' h; simp at h, trivial⟩
      · exact ⟨by intro p' a' h; simp at h, by intro p' a' h; simp at h,
          by intro p' a' h; simp at h,
          by intro p' a' heq s q hmem; simp at hmem,
          by intro p' a' h; simp at h, by intro p' a' h; simp at h, trivial⟩
    · intro p a mid hmid
      have hmono := pushLoop_select_mono ch l
        ⟨st.skip ++ [p], some (.receiptRecvErr p), [Event.release p a]⟩
        (by simp [PendOk, isRelease])
      have hrbs := ih ⟨st.skip ++ [p], some (.receiptRecvErr p), [Event.release p a]⟩
        (by simp [PendOk, isRelease])
      have hres : ∀ p' a', Event.reserve p a = Event.reserve p' a' →
          ∀ s q, Event.select s q ∈ Event.sendDelivery p ::
            (pushLoop ch l ⟨st.skip ++ [p], some (.receiptRecvErr p), [Event.release p a]⟩).2 →
          p' ∈ s := by
        intro p' a' heq s q hmem
        cases heq
        simp only [List.mem_cons] at hmem
        rcases hmem with h | hmem
        · simp at h
        · exact hmono s q hmem (List.mem_append_right _ (by simp))
      rcases hmid with hm | ⟨p2, hm⟩ <;> subst hm <;>
        simp only [stepFold, List.append_assoc, List.cons_append, List.singleton_append,
          List.nil_append]
      · exact RBS_append_no_reserve st.pending _ hpend
          ⟨by intro p' a' h; simp at h, by intro p' a' h; simp at h, hres,
            by intro p' a' h; simp at h, hrbs⟩
      · exact RBS_append_no_reserve st.pending _ hpend
          ⟨by intro p' a' h; simp at h, by intro p' a' h; simp at h,
            by intro p' a' h; simp at h, hres,
            by intro p' a' h; simp at h, hrbs⟩
    · intro p a mid hmid
      have hmono := pushLoop_select_mono ch l
        ⟨st.skip ++ [p], some (.invalidReceiptErr p), [Event.release p a]⟩
        (by simp [PendOk, isRelease])
      have hrbs := ih ⟨st.skip ++ [p], some (.invalidReceiptErr p), [Event.release p a]⟩
        (by simp [PendOk, isRelease])
      have hres : ∀ p' a', Event.reserve p a = Event.reserve p' a' →
          ∀ s q, Event.select s q ∈ Event.sendDelivery p ::
            (pushLoop ch l ⟨st.skip ++ [p], some (.invalidReceiptErr p), [Event.release p a]⟩).2 →
          p' ∈ s := by
        intro p' a' heq s q hmem
        cases heq
        simp only [List.mem_cons] at hmem
        rcases hmem with h | hmem
        · simp at h
        · exact hmono s q hmem (List.mem_append_right _ (by simp))
      rcases hmid with hm | ⟨p2, hm⟩ <;> subst hm <;>
        simp only [stepFold, List.append_assoc, List.cons_append, List.singleton_append,
          List.nil_append]
      · exact RBS_append_no_reserve st.pending _ hpend
          ⟨by intro p' a' h; simp at h, by intro p' a' h; simp at h, hres,
            by intro p' a' h; simp at h, hrbs⟩
      · exact RBS_append_no_reserve st.pending _ hpend
          ⟨by intro p' a' h; simp at h, by intro p' a' h; simp at h,
            by intro p' a' h; simp at h, hres,
            by intro p' a' h; simp at h, hrbs⟩
    · intro p a mid hmid
      rcases hmid with hm | ⟨p2, hm⟩ <;> subst hm <;>
        simp only [stepFold, List.append_assoc, List.cons_append, List.singleton_append,
          List.nil_append] <;>
        refine RBS_append_no_reserve st.pending _ hpend ?_
      · exact ⟨by intro p' a' h; simp at h, by intro p' a' h; simp at h,
          by intro p' a' heq s q hmem; simp at hmem,
          by intro p' a' h; simp at h, by intro p' a' h; simp at h,
          by intro p' a' h; simp at h, trivial⟩
      · exact ⟨by intro p' a' h; simp at h, by intro p' a' h; simp at h,
          by intro p' a' h; simp at h,
          by intro p' a' heq s q hmem; simp at hmem,
          by intro p' a' h; simp at h, by intro p' a' h; simp at h,
          by intro p' a' h; simp at h, trivial⟩
    · intro p a mid rc hmid hrc
      rcases hmid with hm | ⟨p2, hm⟩ <;> subst hm <;>
        simp only [stepFold, List.append_assoc, List.cons_append, List.singleton_append,
          List.nil_append] <;>
        refine RBS_append_no_reserve st.pending _ hpend ?_
      · exact ⟨by intro p' a' h; simp at h, by intro p' a' h; simp at h,
          by intro p' a' heq s q hmem; simp at hmem,
          by intro p' a' h; simp at h, by intro p' a' h; simp at h,
          by intro p' a' h; simp at h, trivial⟩
      · exact ⟨by intro p' a' h; simp at h, by intro p' a' h; simp at h,
          by intro p' a' h; simp at h,
          by intro p' a' heq s q hmem; simp at hmem,
          by intro p' a' h; simp at h, by intro p' a' h; simp at h,
          by intro p' a' h; simp at h, trivial⟩

theorem not_mem_pend_append {st : LoopState} (hst : PendOk st) {x : Event}
    (hx : isRelease x = false) {l2 : List Event} (h2 : x ∉ l2) :
    x ∉ st.pending ++ l2 := by
  intro hmem
  rcases List.mem_append.mp hmem with h | h
  · exact not_mem_pending hst hx h
  · exact h2 h

theorem rf_extend {evA rest : List Event} {r : Except PushErr ReceiptMsg}
    {p0 : Peer} {a0 : Price}
    (hnot : Event.reserveFail p0 a0 ∉ evA)
    (hrec : Event.reserveFail p0 a0 ∈ rest →
      r = .error (.reserveErr p0) ∧ ∃ pre s t, rest =
        pre ++ [Event.select s p0, Event.streamOpen p0 true] ++ t ++
          [Event.reserveFail p0 a0] ∧ ∀ x ∈ t, isReselect x = true)
    (hmem : Event.reserveFail p0 a0 ∈ evA ++ rest) :
    r = .error (.reserveErr p0) ∧ ∃ pre s t, evA ++ rest =
      pre ++ [Event.select s p0, Event.streamOpen p0 true] ++ t ++
        [Event.reserveFail p0 a0] ∧ ∀ x ∈ t, isReselect x = true := by
  rcases List.mem_append.mp hmem with h | h
  · exact absurd h hnot
  · obtain ⟨hres, pre, s, t, heq, ht⟩ := hrec h
    exact ⟨hres, evA ++ pre, s, t, by rw [heq]; simp, ht⟩

/-- Fatal reservation failure: if the trace records a failing `Reserve`,
the call returned that reservation error immediately.  The failing
`Reserve` is the last event of the trace; within its attempt the stream
had been opened but nothing was delivered (only a possible reselection
separates the stream open from the failing `Reserve`), and no further
iteration ran. -/
theorem pushLoop_reserveFail (ch : Chunk) :
    ∀ (l : List IterEnv) (st : LoopState), PendOk st →
    ∀ p0 a0, Event.reserveFail p0 a0 ∈ (pushLoop ch l st).2 →
    (pushLoop ch l st).1 = .error (.reserveErr p0) ∧
    ∃ pre s t, (pushLoop ch l st).2 =
      pre ++ [Event.select s p0, Event.streamOpen p0 true] ++ t ++
        [Event.reserveFail p0 a0] ∧ ∀ x ∈ t, isReselect x = true := by
  intro l
  induction l with
  | nil =>
    intro st hst p0 a0 hmem
    simp only [pushLoop] at hmem
    exact absurd hmem (not_mem_pending hst rfl)
  | cons e l ih =>
    intro st hst
    rw [pushLoop_cons_eq]
    refine iterStep_elim ch e st (fun sr =>
      ∀ p0 a0, Event.reserveFail p0 a0 ∈ (stepFold sr (pushLoop ch l)).2 →
        (stepFold sr (pushLoop ch l)).1 = .error (.reserveErr p0) ∧
        ∃ pre s t, (stepFold sr (pushLoop ch l)).2 =
          pre ++ [Event.select s p0, Event.streamOpen p0 true] ++ t ++
            [Event.reserveFail p0 a0] ∧ ∀ x ∈ t, isReselect x = true)
      ?_ ?_ ?_ ?_ ?_ ?_ ?_ ?_ ?_ ?_ ?_ ?_ ?_
    · intro p0 a0 hmem
      exact absurd hmem (not_mem_pending hst rfl)
    · intro se p0 a0 hmem
      exact absurd hmem (not_mem_pending hst rfl)
    · intro p p0 a0 hmem
      simp only [stepFold] at hmem ⊢
      refine rf_extend ?_
        (fun hm => ih ⟨st.skip, st.lastErr, []⟩ (by simp [PendOk]) p0 a0 hm) hmem
      exact not_mem_pend_append hst (x := Event.reserveFail p0 a0) rfl (by simp)
    · intro p p0 a0 hmem
      simp only [stepFold] at hmem ⊢
      refine rf_extend ?_
        (fun hm => ih ⟨st.skip, some (.newStreamErr p), []⟩ (by simp [PendOk]) p0 a0 hm) hmem
      exact not_mem_pend_append hst (x := Event.reserveFail p0 a0) rfl (by simp)
    · intro p p0 a0 hmem
      simp only [stepFold] at hmem ⊢
      refine rf_extend ?_
        (fun hm => ih ⟨st.skip, st.lastErr, []⟩ (by simp [PendOk]) p0 a0 hm) hmem
      exact not_mem_pend_append hst (x := Event.reserveFail p0 a0) rfl (by simp)
    · intro p p2 p0 a0 hmem
      simp only [stepFold] at hmem ⊢
      refine rf_extend ?_
        (fun hm => ih ⟨st.skip, st.lastErr, []⟩ (by simp [PendOk]) p0 a0 hm) hmem
      exact not_mem_pend_append hst (x := Event.reserveFail p0 a0) rfl (by simp)
    · intro p a mid hmid p0 a0 hmem
      simp only [stepFold] at hmem ⊢
      rcases hmid with hm | ⟨p2, hm⟩ <;> subst hm
      · rcases List.mem_append.mp hmem with h | h
        · exact absurd h (not_mem_pend_append hst (x := Event.reserveFail p0 a0) rfl (by simp))
        · simp only [List.mem_singleton, Event.reserveFail.injEq] at h
          obtain ⟨rfl, rfl⟩ := h
          exact ⟨rfl, st.pending, st.skip, [], by simp, by simp⟩
      · rcases List.mem_append.mp hmem with h | h
        · exact absurd h (not_mem_pend_append hst (x := Event.reserveFail p0 a0) rfl (by simp))
        · simp only [List.mem_singleton, Event.reserveFail.injEq] at h
          obtain ⟨rfl, rfl⟩ := h
          exact ⟨rfl, st.pending, st.skip, [Event.reselect st.skip p2], by simp,
            by simp [isReselect]⟩
    · intro p a mid hmid p0 a0 hmem
      simp only [stepFold] at hmem ⊢
      have hrec := fun hm => ih ⟨st.skip ++ [p], some (.deliverErr p),
        [Event.release p a]⟩ (by simp [PendOk, isRelease]) p0 a0 hm
      rcases hmid with hm | ⟨p2, hm⟩ <;> subst hm
      · refine rf_extend ?_ hrec hmem
        intro hx
        rw [List.append_assoc] at hx
        exact not_mem_pend_append hst (x := Event.reserveFail p0 a0) rfl (by simp) hx
      · refine rf_extend ?_ hrec hmem
        intro hx
        rw [List.append_assoc] at hx
        exact not_mem_pend_append hst (x := Event.reserveFail p0 a0) rfl (by simp) hx
    · intro p a mid hmid p0 a0 hmem
      exfalso
      rcases hmid with hm | ⟨p2, hm⟩ <;> subst hm <;>
        rw [List.append_assoc] at hmem
      · exact not_mem_pend_append hst (x := Event.reserveFail p0 a0) rfl (by simp) hmem
      · exact not_mem_pend_append hst (x := Event.reserveFail p0 a0) rfl (by simp) hmem
    · intro p a mid hmid p0 a0 hmem
      simp only [stepFold] at hmem ⊢
      have hrec := fun hm => ih ⟨st.skip ++ [p], some (.receiptRecvErr p),
        [Event.release p a]⟩ (by simp [PendOk, isRelease]) p0 a0 hm
      rcases hmid with hm | ⟨p2, hm⟩ <;> subst hm
      · refine rf_extend ?_ hrec hmem
        intro hx
        rw [List.append_assoc] at hx
        exact not_mem_pend_append hst (x := Event.reserveFail p0 a0) rfl (by simp) hx
      · refine rf_extend ?_ hrec hmem
        intro hx
        rw [List.append_assoc] at hx
        exact not_mem_pend_append hst (x := Event.reserveFail p0 a0) rfl (by simp) hx
    · intro p a mid hmid p0 a0 hmem
      simp only [stepFold] at hmem ⊢
      have hrec := fun hm => ih ⟨st.skip ++ [p], some (.invalidReceiptErr p),
        [Event.release p a]⟩ (by simp [PendOk, isRelease]) p0 a0 hm
      rcases hmid with hm | ⟨p2, hm⟩ <;> subst hm
      · refine rf_extend ?_ hrec hmem
        intro hx
        rw [List.append_assoc] at hx
        exact not_mem_pend_append hst (x := Event.reserveFail p0 a0) rfl (by simp) hx
      · refine rf_extend ?_ hrec hmem
        intro hx
        rw [List.append_assoc] at hx
        exact not_mem_pend_append hst (x := Event.reserveFail p0 a0) rfl (by simp) hx
    · intro p a mid hmid p0 a0 hmem
      exfalso
      rcases hmid with hm | ⟨p2, hm⟩ <;> subst hm <;>
        rw [List.append_assoc] at hmem
      · exact not_mem_pend_append hst (x := Event.reserveFail p0 a0) rfl (by simp) hmem
      · exact not_mem_pend_append hst (x := Event.reserveFail p0 a0) rfl (by simp) hmem
    · intro p a mid rc hmid hrc p0 a0 hmem
      exfalso
      rcases hmid with hm | ⟨p2, hm⟩ <;> subst hm <;>
        rw [List.append_assoc] at hmem
      · exact not_mem_pend_append hst (x := Event.reserveFail p0 a0) rfl (by simp) hmem
      · exact not_mem_pend_append hst (x := Event.reserveFail p0 a0) rfl (by simp) hmem

/-- If every iteration of the loop continued (no early return), the call
returns the final state's last recorded error, or the not-found sentinel
when none was recorded. -/
theorem pushLoop_runIters (ch : Chunk) :
    ∀ (l : List IterEnv) (st st' : LoopState), runIters ch l st = some st' →
    (pushLoop ch l st).1 =
      (match st'.lastErr with
       | some err => .error err
       | none => .error .notFound) := by
  intro l
  induction l with
  | nil =>
    intro st st' h
    simp only [runIters, Option.some.injEq] at h
    subst h
    rfl
  | cons e l ih =>
    intro st st' h
    rw [pushLoop_cons_eq]
    simp only [runIters] at h
    cases hstep : iterStep ch e st with
    | done r ev =>
      rw [hstep] at h
      exact absurd h (by simp)
    | next st2 ev =>
      rw [hstep] at h
      simpa [stepFold] using ih st2 st' h

theorem iterStep_headersFail (ch : Chunk) (e : IterEnv) (st : LoopState) (p : Peer)
    (hc : e.ctxDone = false) (h1 : e.cheapest1 st.skip = .ok p)
    (hm : e.makeHeadersOk = false) :
    iterStep ch e st = .next ⟨st.skip, st.lastErr, []⟩
      (st.pending ++ [Event.select st.skip p]) := by
  simp [iterStep, hc, h1, hm]

theorem iterStep_parseFail (ch : Chunk) (e : IterEnv) (st : LoopState) (p : Peer)
    (hc : e.ctxDone = false) (h1 : e.cheapest1 st.skip = .ok p)
    (hm : e.makeHeadersOk = true) (hs : e.newStream p = true)
    (h2 : e.parseResp = .error ()) :
    iterStep ch e st = .next ⟨st.skip, st.lastErr, []⟩
      (st.pending ++ [Event.select st.skip p, Event.streamOpen p true]) := by
  simp [iterStep, hc, h1, hm, hs, h2]

/-- A run in which every iteration fails silently (headers build or
response parse): all five attempts are consumed, every `CheapestPeer`
query still receives the empty skip list, and the call ends with the
not-found sentinel (no last error was ever recorded). -/
theorem pushLoop_silent (ch : Chunk) :
    ∀ (l : List IterEnv), (∀ e ∈ l, SilentIterFail e) →
    ∀ (p0 : List Event), (∀ x ∈ p0, isRelease x = true) →
    (pushLoop ch l ⟨[], none, p0⟩).1 = .error .notFound ∧
    (∀ s q, Event.select s q ∈ (pushLoop ch l ⟨[], none, p0⟩).2 → s = []) ∧
    (pushLoop ch l ⟨[], none, p0⟩).2.countP isSelect = l.length := by
  intro l
  induction l with
  | nil =>
    intro _ p0 hp0
    have hpend2 : PendOk ⟨[], none, p0⟩ := hp0
    refine ⟨rfl, ?_, ?_⟩
    · intro s q hmem
      simp only [pushLoop] at hmem
      exact absurd hmem (not_mem_pending hpend2 rfl)
    · simp only [pushLoop]
      exact countP_eq_zero_of_release isSelect (fun _ _ => rfl) hp0
  | cons e l ih =>
    intro hl p0 hp0
    have hpend2 : PendOk ⟨[], none, p0⟩ := hp0
    obtain ⟨hc, p, h1, hcase⟩ := hl e (List.mem_cons_self _ _)
    have hrec := ih (fun e' he' => hl e' (List.mem_cons_of_mem _ he')) [] (by simp)
    obtain ⟨hres, hsel, hcount⟩ := hrec
    rcases hcase with hm | ⟨hm, hs, h2⟩
    · rw [pushLoop_cons_eq, iterStep_headersFail ch e ⟨[], none, p0⟩ p hc h1 hm]
      refine ⟨by simpa [stepFold] using hres, ?_, ?_⟩
      · intro s q hmem
        simp only [stepFold, List.mem_append] at hmem
        rcases hmem with (hmem | hmem) | hmem
        · exact absurd hmem (not_mem_pending hpend2 rfl)
        · simp only [List.mem_singleton, Event.select.injEq] at hmem
          exact hmem.1
        · exact hsel s q hmem
      · have h0 := countP_eq_zero_of_release isSelect (fun _ _ => rfl) hp0
        simp only [stepFold, List.countP_append, h0, hcount]
        simp [isSelect]
        omega
    · rw [pushLoop_cons_eq, iterStep_parseFail ch e ⟨[], none, p0⟩ p hc h1 hm hs h2]
      refine ⟨by simpa [stepFold] using hres, ?_, ?_⟩
      · intro s q hmem
        simp only [stepFold, List.mem_append] at hmem
        rcases hmem with (hmem | hmem) | hmem
        · exact absurd hmem (not_mem_pending hpend2 rfl)
        · simp only [List.mem_cons, List.mem_singleton, Event.select.injEq] at hmem
          rcases hmem with hmem | hmem
          · exact hmem.1
          · simp at hmem
        · exact hsel s q hmem
      · have h0 := countP_eq_zero_of_release isSelect (fun _ _ => rfl) hp0
        simp only [stepFold, List.countP_append, h0, hcount]
        simp [isSelect]
        omega

theorem replicationTargets_length : ∀ (ns : List Peer) (up : Peer) (c : Nat),
    c ≤ nPeersToPushsync →
    (replicationTargets ns up c).length + c ≤ nPeersToPushsync := by
  intro ns
  induction ns with
  | nil =>
    intro up c hc
    simpa [replicationTargets] using hc
  | cons n ns ih =>
    intro up c hc
    by_cases h1 : n = up
    · simpa [replicationTargets, h1] using ih up c hc
    · by_cases h2 : c = nPeersToPushsync
      · simp [replicationTargets, h1, h2]
      · have hrec := ih up (c + 1) (by omega)
        simp only [replicationTargets, if_neg h1, if_neg h2, List.length_cons]
        omega

theorem replicationTargets_not_upstream : ∀ (ns : List Peer) (up : Peer) (c : Nat),
    up ∉ replicationTargets ns up c := by
  intro ns
  induction ns with
  | nil =>
    intro up c
    simp [replicationTargets]
  | cons n ns ih =>
    intro up c
    by_cases h1 : n = up
    · simpa [replicationTargets, h1] using ih up c
    · by_cases h2 : c = nPeersToPushsync
      · simp [replicationTargets, h1, h2]
      · rw [replicationTargets, if_neg h1, if_neg h2]
        intro hmem
        rcases List.mem_cons.mp hmem with h | h
        · exact h1 h.symm
        · exact ih up (c + 1) h

theorem replicationTargets_subset : ∀ (ns : List Peer) (up : Peer) (c : Nat),
    replicationTargets ns up c ⊆ ns := by
  intro ns
  induction ns with
  | nil =>
    intro up c
    simp [replicationTargets]
  | cons n ns ih =>
    intro up c
    by_cases h1 : n = up
    · rw [replicationTargets, if_pos h1]
      exact fun x hx => List.mem_cons_of_mem _ (ih up c hx)
    · by_cases h2 : c = nPeersToPushsync
      · simp [replicationTargets, h1, h2]
      · rw [replicationTargets, if_neg h1, if_neg h2]
        intro x hx
        rcases List.mem_cons.mp hx with h | h
        · exact h ▸ List.mem_cons_self _ _
        · exact List.mem_cons_of_mem _ (ih up (c + 1) h)

/-- C6: when the upstream sender is strictly closer to the chunk than
this node (`DistanceCmp = 1`), the handler acts as a pure replication
target: within storage depth it stores the chunk and debits the upstream
peer for the negotiated price (returning success when the debit
succeeds); outside storage depth it returns the out-of-depth-replication
error having performed no store and no debit. -/
theorem handler_upstream_closer (env : HandlerEnv) (up : Peer) (msg : DeliveryMsg)
    (hread : env.readDelivery = .ok msg)
    (hvalid : env.cacValid = true ∨ env.socValid = true)
    (hd : env.distanceCmp = 1) :
    (env.withinDepth = true →
      (handler env up).2 = [HEvent.putReplica,
        HEvent.debitCall up (env.respPriceHeader.getD env.priceForPeer)] ∧
      (env.debitOk = true → (handler env up).1 = .ok ())) ∧
    (env.withinDepth = false →
      (handler env up).1 = .error .outOfDepthReplication ∧
      (handler env up).2 = []) := by
  constructor
  · intro hw
    constructor
    · rcases hvalid with hv | hv <;> simp [handler, hread, hv, hd, hw]
    · intro hdb
      rcases hvalid with hv | hv <;> simp [handler, hread, hv, hd, hw, hdb]
  · intro hw
    constructor <;> rcases hvalid with hv | hv <;> simp [handler, hread, hv, hd, hw]

/-- C7: when the inner forwarding call fails with the want-self sentinel,
the handler stores the chunk (a store failure aborts the handler with no
receipt and no debit), signs a receipt over the chunk's address, writes
it upstream, debits the upstream peer for the price, and spawns at most
`nPeersToPushsync` replication attempts toward neighbors, never including
the upstream peer. -/
theorem handler_want_self (env : HandlerEnv) (up : Peer) (msg : DeliveryMsg)
    (sig : List Nat)
    (hread : env.readDelivery = .ok msg)
    (hvalid : env.cacValid = true ∨ env.socValid = true)
    (hd : ¬env.distanceCmp = 1)
    (hpush : (pushToClosest env.pushEnv ⟨msg.address, msg.data, 0⟩).res =
      .error (.closestPeer .wantSelf)) :
    (env.putSelfOk = false → (handler env up).1 = .error .storeErr ∧
      (handler env up).2 =
        (if env.withinDepth then [HEvent.putForward] else []) ++ [HEvent.putSelf]) ∧
    (env.putSelfOk = true → env.signResult = .ok sig → env.writeReceiptOk = true →
      env.debitOk = true →
      (handler env up).1 = .ok () ∧
      (handler env up).2 =
        (if env.withinDepth then [HEvent.putForward] else []) ++ [HEvent.putSelf] ++
          (replicationTargets env.neighbors up 0).map HEvent.launchReplication ++
          [HEvent.signCall msg.address, HEvent.writeReceiptUp msg.address sig,
            HEvent.debitCall up (env.respPriceHeader.getD env.priceForPeer)] ∧
      (replicationTargets env.neighbors up 0).length ≤ nPeersToPushsync ∧
      up ∉ replicationTargets env.neighbors up 0 ∧
      replicationTargets env.neighbors up 0 ⊆ env.neighbors) := by
  constructor
  · intro hps
    constructor <;> rcases hvalid with hv | hv <;> cases hwd : env.withinDepth <;>
      simp [handler, hread, hv, hd, hpush, hps, hwd]
  · intro hps hsig hwr hdb
    refine ⟨?_, ?_, ?_, replicationTargets_not_upstream _ _ _,
      replicationTargets_subset _ _ _⟩
    · rcases hvalid with hv | hv <;> cases hwd : env.withinDepth <;>
        simp [handler, hread, hv, hd, hpush, hps, hsig, hwr, hdb, hwd]
    · rcases hvalid with hv | hv <;> cases hwd : env.withinDepth <;>
        simp [handler, hread, hv, hd, hpush, hps, hsig, hwr, hdb, hwd]
    · have := replicationTargets_length env.neighbors up 0 (by simp [nPeersToPushsync])
      omega

/-- C1 (amended): on every execution path of `pushToClosest`, each
reservation created by a successful `Reserve` is released exactly once
(the deferred `Release` runs on loop re-entry or on return), so the
number of `Release` calls equals the number of successful `Reserve`
calls; `Credit` does not replace the `Release` — exactly one `Credit` is
additionally issued when and only when the call succeeds. -/
theorem push_reserve_release_balance (env : Nat → IterEnv) (ch : Chunk) :
    ((pushToClosest env ch).events.countP isRelease) =
      ((pushToClosest env ch).events.countP isReserve) ∧
    ((pushToClosest env ch).events.countP isCredit) =
      resOkCount (pushToClosest env ch).res := by
  have h1 := pushLoop_release_count ch ((List.range maxPeers).map env) initState
    (by simp [PendOk, initState])
  have h2 := pushLoop_credit_count ch ((List.range maxPeers).map env) initState
    (by simp [PendOk, initState])
  constructor
  · simpa [pushToClosest, initState] using h1
  · simpa [pushToClosest, initState] using h2

/-- C1 counterexample: in a run whose first attempt succeeds, one
reservation is created but both a `Credit` and a `Release` are issued for
it (the deferred `Release` runs unconditionally on return, after the
`Credit`), so the number of `Reserve` calls (1) differs from the number
of `Release` plus `Credit` calls (2), and the single reservation is both
released and credited. -/
theorem reserve_resolution_cex :
    ((pushToClosest envSucc chT).events.countP isReserve) = 1 ∧
    ((pushToClosest envSucc chT).events.countP isRelease) +
      ((pushToClosest envSucc chT).events.countP isCredit) = 2 ∧
    Event.credit 7 5 ∈ (pushToClosest envSucc chT).events ∧
    Event.release 7 5 ∈ (pushToClosest envSucc chT).events ∧
    (pushToClosest envSucc chT).res = .ok ⟨3, [1, 2]⟩ :=
  ⟨by decide, by decide, by decide, by decide, rfl⟩

/-- C2 (amended): a selected peer is added to the skip list only when its
attempt reaches the reservation step (right before `Reserve` is called);
from then on every subsequent `CheapestPeer` query of the same call
excludes it.  Failures before that point (headers build, stream open,
response parse, price notify, cheapest-peer change) do not add the peer. -/
theorem skip_excludes_reserved (env : Nat → IterEnv) (ch : Chunk)
    (xs ys : List Event) (p : Peer) (a : Price) (s : List Peer) (q : Peer)
    (hsplit : (pushToClosest env ch).events = xs ++ Event.reserve p a :: ys)
    (hmem : Event.select s q ∈ ys) : p ∈ s := by
  have hrbs := pushLoop_RBS ch ((List.range maxPeers).map env) initState
    (by simp [PendOk, initState])
  have hrbs2 : RBS (pushToClosest env ch).events := hrbs
  exact RBS_positional xs hrbs2 hsplit s q hmem

/-- C2 witness: a run whose first attempt reserves against peer 7 and
fails at the delivery write; the next `CheapestPeer` query receives a
skip list containing 7. -/
theorem skip_excludes_reserved_witness :
    (pushToClosest envC2w chT).events =
      [Event.select [] 7, Event.streamOpen 7 true, Event.reserve 7 5,
       Event.sendDelivery 7, Event.release 7 5, Event.select [7] 7,
       Event.streamOpen 7 true, Event.reserve 7 5, Event.sendDelivery 7,
       Event.credit 7 5, Event.release 7 5] ∧
    (7 : Peer) ∈ ([7] : List Peer) :=
  ⟨by decide, skip_excludes_reserved envC2w chT
    [Event.select [] 7, Event.streamOpen 7 true]
    [Event.sendDelivery 7, Event.release 7 5, Event.select [7] 7,
     Event.streamOpen 7 true, Event.reserve 7 5, Event.sendDelivery 7,
     Event.credit 7 5, Event.release 7 5] 7 5 [7] 7 (by decide) (by decide)⟩

/-- C2 counterexample: a stream-open failure does not add the selected
peer to the skip list — the next `CheapestPeer` query still receives the
empty skip list, and the same peer 7 is selected again. -/
theorem skip_add_stream_open_cex :
    (pushToClosest envC2 chT).events =
      [Event.select [] 7, Event.streamOpen 7 false, Event.select [] 7,
       Event.streamOpen 7 true, Event.reserve 7 5, Event.sendDelivery 7,
       Event.credit 7 5, Event.release 7 5] ∧
    (pushToClosest envC2 chT).events.get? 2 = some (Event.select [] 7) ∧
    (7 : Peer) ∉ ([] : List Peer) := by
  decide

/-- C3: every successful `PushChunkToClosest` call returns a receipt
whose address equals the chunk's address, and its trace contains exactly
one `Credit`, issued for the peer to which the final delivery was sent
(the peer that returned the receipt). -/
theorem pushChunk_success_receipt (env : Nat → IterEnv) (ch : Chunk) (r : Receipt)
    (h : (PushChunkToClosest env ch).1 = .ok r) :
    r.address = ch.address ∧
    ∃ p a pre, (PushChunkToClosest env ch).2 =
      pre ++ [Event.reserve p a, Event.sendDelivery p, Event.credit p a,
        Event.release p a] ∧
      (PushChunkToClosest env ch).2.countP isCredit = 1 := by
  cases hres : (pushToClosest env ch).res with
  | error err => simp [PushChunkToClosest, hres] at h
  | ok rc =>
    have hpk : PendOk initState := by simp [PendOk, initState]
    have hres' : (pushLoop ch ((List.range maxPeers).map env) initState).1 = .ok rc := by
      simpa [pushToClosest] using hres
    obtain ⟨ha, p, a, pre, hpre⟩ :=
      pushLoop_ok_shape ch ((List.range maxPeers).map env) initState hpk rc hres'
    have hcc := pushLoop_credit_count ch ((List.range maxPeers).map env) initState hpk
    rw [hres'] at hcc
    have hev : (PushChunkToClosest env ch).2 =
        (pushLoop ch ((List.range maxPeers).map env) initState).2 := by
      simp only [PushChunkToClosest, hres]
      rfl
    simp only [PushChunkToClosest, hres] at h
    injection h with h2
    refine ⟨?_, p, a, pre, ?_, ?_⟩
    · rw [← h2]
      exact ha
    · rw [hev, hpre]
    · rw [hev]
      simpa [resOkCount] using hcc

/-- C3 witness: a concrete successful call returning the receipt for
address 3. -/
theorem pushChunk_success_receipt_witness :
    (PushChunkToClosest envSucc chT).1 = .ok ⟨3, [1, 2]⟩ ∧
    (⟨3, [1, 2]⟩ : Receipt).address = chT.address :=
  ⟨rfl, (pushChunk_success_receipt envSucc chT ⟨3, [1, 2]⟩ rfl).1⟩

/-- C4: if all `maxPeers` (5) iterations run without an early return, the
call returns the last recorded retryable error, or the not-found sentinel
when no retryable error was ever recorded. -/
theorem exhaustion_returns_last_error (env : Nat → IterEnv) (ch : Chunk)
    (st' : LoopState)
    (h : runIters ch ((List.range maxPeers).map env) initState = some st') :
    (pushToClosest env ch).res =
      (match st'.lastErr with
       | some err => Except.error err
       | none => Except.error PushErr.notFound) :=
  pushLoop_runIters ch ((List.range maxPeers).map env) initState st' h

/-- C4 witness: five iterations all failing at the pricing-headers build
record no error, and the call returns the not-found sentinel. -/
theorem exhaustion_returns_last_error_witness :
    runIters chT ((List.range maxPeers).map envHF) initState = some ⟨[], none, []⟩ ∧
    (pushToClosest envHF chT).res = .error .notFound :=
  ⟨rfl, exhaustion_returns_last_error envHF chT ⟨[], none, []⟩ rfl⟩

/-- C5: a failing `Reserve` aborts the whole call with that error: the
failing `Reserve` is the last event of the trace (no further peer is
attempted), and within that attempt the stream was opened but no delivery
was sent (at most a reselection separates the stream open from the
failing `Reserve`). -/
theorem reserve_failure_fatal (env : Nat → IterEnv) (ch : Chunk)
    (p : Peer) (a : Price)
    (hmem : Event.reserveFail p a ∈ (pushToClosest env ch).events) :
    (pushToClosest env ch).res = .error (.reserveErr p) ∧
    ∃ pre s t, (pushToClosest env ch).events =
      pre ++ [Event.select s p, Event.streamOpen p true] ++ t ++
        [Event.reserveFail p a] ∧ ∀ x ∈ t, isReselect x = true :=
  pushLoop_reserveFail ch ((List.range maxPeers).map env) initState
    (by simp [PendOk, initState]) p a hmem

/-- C5 witness: a run whose second attempt fails at `Reserve` ends
immediately with the reservation error. -/
theorem reserve_failure_fatal_witness :
    Event.reserveFail 7 5 ∈ (pushToClosest envRF chT).events ∧
    (pushToClosest envRF chT).res = .error (.reserveErr 7) :=
  ⟨by decide, (reserve_failure_fatal envRF chT 7 5 (by decide)).1⟩

/-- C8: when the peer's returned price differs from the proposed price
and the re-queried cheapest peer is a different peer, the iteration
abandons the attempt and continues to the next selection: skip list and
last error are unchanged, no deferred action is pending, and the
iteration emitted no `Reserve`, no delivery and no new `Release` (no
reservation existed for the abandoned attempt, so none needed releasing). -/
theorem price_mismatch_restart (ch : Chunk) (e : IterEnv) (st : LoopState)
    (p p2 : Peer) (rp : Price) (ri : Nat)
    (hst : PendOk st)
    (hc : e.ctxDone = false) (h1 : e.cheapest1 st.skip = .ok p)
    (hm : e.makeHeadersOk = true) (hs : e.newStream p = true)
    (h2 : e.parseResp = .ok (rp, ri)) (hp : ¬rp = e.peerPrice p)
    (hn : e.notifyOk p rp ri = true) (h3 : e.cheapest2 st.skip = .ok p2)
    (hq : ¬p2 = p) :
    iterStep ch e st = .next ⟨st.skip, st.lastErr, []⟩
      (st.pending ++ [Event.select st.skip p, Event.streamOpen p true,
        Event.reselect st.skip p2]) ∧
    (st.pending ++ [Event.select st.skip p, Event.streamOpen p true,
      Event.reselect st.skip p2]).countP isReserve = 0 ∧
    (st.pending ++ [Event.select st.skip p, Event.streamOpen p true,
      Event.reselect st.skip p2]).countP isSendDelivery = 0 ∧
    (st.pending ++ [Event.select st.skip p, Event.streamOpen p true,
      Event.reselect st.skip p2]).countP isRelease =
      st.pending.countP isRelease := by
  refine ⟨by simp [iterStep, hc, h1, hm, hs, h2, hp, hn, h3, hq], ?_, ?_, ?_⟩
  · have h0 := countP_eq_zero_of_release isReserve (fun _ _ => rfl) hst
    simp [List.countP_append, h0, isReserve]
  · have h0 := countP_eq_zero_of_release isSendDelivery (fun _ _ => rfl) hst
    simp [List.countP_append, h0, isSendDelivery]
  · simp [List.countP_append, isRelease]

/-- C8 witness: the selected peer 7 returns price 9 instead of 5, and the
re-query names peer 8 as cheapest, so the attempt is abandoned. -/
theorem price_mismatch_restart_witness :
    iterStep chT eC8 initState = .next ⟨[], none, []⟩
      [Event.select [] 7, Event.streamOpen 7 true, Event.reselect [] 8] := by
  have := price_mismatch_restart chT eC8 initState 7 8 9 0
    (by simp [PendOk, initState]) rfl rfl rfl rfl rfl (by decide) rfl rfl (by decide)
  simpa [initState] using this.1

/-- C9: an iteration failing while building the pricing headers or while
parsing the pricing response consumes one of the five attempts without
recording a last error and without adding the selected peer to the skip
list; a call in which every iteration fails that way makes all five
`CheapestPeer` queries with the empty skip list (so the same peer may be
re-selected) and returns the not-found sentinel rather than an error
describing the failures. -/
theorem silent_failures_not_found (env : Nat → IterEnv) (ch : Chunk)
    (h : ∀ i < maxPeers, SilentIterFail (env i)) :
    (pushToClosest env ch).res = .error .notFound ∧
    (∀ s q, Event.select s q ∈ (pushToClosest env ch).events → s = []) ∧
    (pushToClosest env ch).events.countP isSelect = maxPeers := by
  have hall : ∀ e ∈ (List.range maxPeers).map env, SilentIterFail e := by
    intro e he
    simp only [List.mem_map, List.mem_range] at he
    obtain ⟨i, hi, rfl⟩ := he
    exact h i hi
  obtain ⟨h1, h2, h3⟩ :=
    pushLoop_silent ch ((List.range maxPeers).map env) hall [] (by simp)
  exact ⟨h1, h2, by simpa using h3⟩

/-- C9 witness: headers building fails on all five iterations; peer 7 is
selected five times with the empty skip list, and the call returns
not-found. -/
theorem silent_failures_not_found_witness :
    (pushToClosest envHF chT).events =
      [Event.select [] 7, Event.select [] 7, Event.select [] 7,
       Event.select [] 7, Event.select [] 7] ∧
    (pushToClosest envHF chT).res = .error .notFound :=
  ⟨by decide, (silent_failures_not_found envHF chT
    (fun _ _ => ⟨rfl, 7, rfl, Or.inl rfl⟩)).1⟩

/-- C10: receipt validation is only the address comparison: for any
signature bytes whatsoever, a receipt whose address equals the chunk's
address is accepted, the peer is credited, and the receipt is returned
unchanged — no signature verification happens. -/
theorem receipt_accepted_any_signature (env : Nat → IterEnv) (ch : Chunk)
    (p : Peer) (sig : List Nat) (ri : Nat)
    (hc : (env 0).ctxDone = false) (h1 : (env 0).cheapest1 [] = .ok p)
    (hm : (env 0).makeHeadersOk = true) (hs : (env 0).newStream p = true)
    (h2 : (env 0).parseResp = .ok ((env 0).peerPrice p, ri))
    (hr : (env 0).reserveOk p ((env 0).peerPrice p) = true)
    (hw : (env 0).writeOk = true) (ht : ¬(env 0).tagOutcome = .incErr)
    (hread : (env 0).readReceipt = .ok ⟨ch.address, sig⟩)
    (hcr : (env 0).creditOk p ((env 0).peerPrice p) = true) :
    (pushToClosest env ch).res = .ok ⟨ch.address, sig⟩ ∧
    Event.credit p ((env 0).peerPrice p) ∈ (pushToClosest env ch).events := by
  have hl : (List.range maxPeers).map env =
      env 0 :: [env 1, env 2, env 3, env 4] := rfl
  have hstep : iterStep ch (env 0) initState = .done (.ok ⟨ch.address, sig⟩)
      [Event.select [] p, Event.streamOpen p true,
       Event.reserve p ((env 0).peerPrice p), Event.sendDelivery p,
       Event.credit p ((env 0).peerPrice p),
       Event.release p ((env 0).peerPrice p)] := by
    simp [iterStep, afterRecon, initState, hc, h1, hm, hs, h2, hr, hw, ht, hread, hcr]
  constructor
  · show (pushLoop ch ((List.range maxPeers).map env) initState).1 = _
    rw [hl, pushLoop_cons_eq, hstep]
    rfl
  · show Event.credit p ((env 0).peerPrice p) ∈
      (pushLoop ch ((List.range maxPeers).map env) initState).2
    rw [hl, pushLoop_cons_eq, hstep]
    simp [stepFold]

/-- C6 witness: with the upstream peer closer and the chunk within depth,
the handler returns success. -/
theorem handler_upstream_closer_witness :
    hEnvC6.withinDepth = true ∧ (handler hEnvC6 9).1 = .ok () :=
  ⟨rfl, ((handler_upstream_closer hEnvC6 9 ⟨3, [9]⟩ rfl (Or.inl rfl) rfl).1 rfl).2 rfl⟩

/-- C7 witness: the terminal case stores, signs and debits successfully,
and the replication targets exclude the upstream peer 9. -/
theorem handler_want_self_witness :
    (handler hEnvC7 9).1 = .ok () ∧ 9 ∉ replicationTargets hEnvC7.neighbors 9 0 :=
  ⟨((handler_want_self hEnvC7 9 ⟨3, [9]⟩ [4] rfl (Or.inl rfl) (by decide) rfl).2
      rfl rfl rfl rfl).1,
   ((handler_want_self hEnvC7 9 ⟨3, [9]⟩ [4] rfl (Or.inl rfl) (by decide) rfl).2
      rfl rfl rfl rfl).2.2.2.1⟩

/-- C10 witness: an empty signature is accepted as long as the address
matches. -/
theorem receipt_accepted_any_signature_witness :
    (pushToClosest envSig chT).res = .ok ⟨3, []⟩ :=
  (receipt_accepted_any_signature envSig chT 7 [] 0 rfl rfl rfl rfl rfl rfl rfl
    (by decide) rfl rfl).1

end Pushsync
